import Mathlib

/-!
Verification of the 1pass Agile Keychain engine (Go) against its
natural-language specification.

Shallow embedding conventions:
* Byte strings are `List Nat` (each element a byte value; arithmetic such as
  `Nat.xor` is exact on byte values < 256 so no explicit truncation is needed
  in the places the code performs byte operations).
* Go functions returning `(T, error)` become `Except String T`; Go functions
  whose only failure is a runtime panic become `Option T`.
* Go maps are association lists; a possibly-nil Go map is an
  `Option (List (key × value))` with `none` standing for the nil map, which
  Go distinguishes from an empty one.
* The AES-128 block cipher, MD5 and PBKDF2-HMAC-SHA1 are external library
  primitives (crypto/aes, crypto/md5, golang.org/x/crypto/pbkdf2), not code
  of this repository; they enter the embedding as explicit function
  parameters (`encBlock`, `decBlock`, `md5f`, `pbkdf2f`), with the facts the
  code relies on (block-cipher inversion, output lengths) as hypotheses that
  are true of the real primitives and are discharged on concrete
  instantiations in the witnesses.
* Sources of randomness (`randomBytes`) and the current time become explicit
  arguments.
-/

instance {ε α : Type} [DecidableEq ε] [DecidableEq α] : DecidableEq (Except ε α) := fun x y =>
  match x, y with
  | .ok a, .ok b =>
    if h : a = b then .isTrue (by rw [h]) else .isFalse (by simp [h])
  | .error a, .error b =>
    if h : a = b then .isTrue (by rw [h]) else .isFalse (by simp [h])
  | .ok _, .error _ => .isFalse (by simp)
  | .error _, .ok _ => .isFalse (by simp)

/-! ## Constants (onepass/vault.go) -/

def Aes128KeyLen : Nat := 16

def AesBlockLen : Nat := 16

def agileKeychainKeyLen : Nat := 1024

/-- The bytes of the envelope magic string "Salted__". -/
def saltMagic : List Nat := [83, 97, 108, 116, 101, 100, 95, 95]

/-! ## PKCS#7 padding (onepass/vault.go: aesAddPadding / aesStripPadding) -/

/-- `aesAddPadding` appends `16 - len % 16` bytes, each equal to the padding
length, to make the length a multiple of the AES block size. -/
def aesAddPadding (data : List Nat) : List Nat :=
  let paddingLen := AesBlockLen - data.length % AesBlockLen
  data ++ List.replicate paddingLen paddingLen

/-- `aesStripPadding` from the source: rejects data whose length is not a
multiple of 16, reads the last byte as the padding length, rejects it only
when it exceeds 16 (values `0` are accepted as-is), and drops that many
trailing bytes.  Go indexes `data[len(data)-1]`, which panics on empty
input; the empty case is modelled as an error. -/
def aesStripPadding (data : List Nat) : Except String (List Nat) :=
  if data.length % AesBlockLen ≠ 0 then
    .error "Decrypted data block length is not a multiple of 16"
  else
    match data.getLast? with
    | none => .error "index out of range"
    | some paddingLen =>
      if paddingLen > 16 then
        .error "Invalid last block padding length"
      else
        .ok (data.take (data.length - paddingLen))

/-! ## Salted envelope unpacking -/

/-- `extractSaltAndCipherText` from onepass/vault.go (the version used by
`UnlockKeys` and `DecryptItemData`): requires length ≥ 16 and returns
bytes 8..16 as the salt and bytes 16.. as the ciphertext.  It never looks
at the magic. -/
def extractSaltAndCipherText (data : List Nat) : Except String (List Nat × List Nat) :=
  if data.length < 16 then
    .error "Ciphertext missing salt"
  else
    .ok ((data.drop 8).take 8, data.drop 16)

/-- `extractSaltAndCipherText` from the legacy root-package vault.go: checks
whether the input begins with "Salted__"; if so returns bytes 8..16 and
16.., otherwise returns no salt and the whole input as ciphertext.  The Go
slicing `data[0:8]` / `data[8:16]` panics when the input is too short;
those panics are modelled as `none`. -/
def extractSaltAndCipherTextLegacy (data : List Nat) : Option (List Nat × List Nat) :=
  if data.length < 8 then
    none
  else if data.take 8 = saltMagic then
    if data.length < 16 then
      none
    else
      some ((data.drop 8).take 8, data.drop 16)
  else
    some ([], data)

/-! ## AES-CBC (onepass/vault.go: aesCbcEncrypt / aesCbcDecrypt)

The Go code builds the keyed AES block cipher with `aes.NewCipher(key)` and
chains it in CBC mode via `cipher.NewCBCEncrypter` / `NewCBCDecrypter`.
The chaining is implemented here; the keyed block permutation itself is the
external primitive passed in as `encBlock` / `decBlock`. -/

def xorBytes (a b : List Nat) : List Nat := List.zipWith Nat.xor a b

/-- Structural worker for `toBlocks`; `fuel` only has to dominate the list
length, so recursion is structural and evaluates by reduction. -/
def toBlocksGo : Nat → List Nat → List (List Nat)
  | _, [] => []
  | 0, _ :: _ => []
  | fuel + 1, a :: rest =>
    (a :: rest).take 16 :: toBlocksGo fuel ((a :: rest).drop 16)

/-- Split a byte string into consecutive 16-byte blocks (the last block may
be shorter when the length is not a multiple of 16). -/
def toBlocks (data : List Nat) : List (List Nat) :=
  toBlocksGo data.length data

theorem toBlocksGo_congr : ∀ (fuel fuel' : Nat) (data : List Nat),
    data.length ≤ fuel → data.length ≤ fuel' →
    toBlocksGo fuel data = toBlocksGo fuel' data := by
  intro fuel
  induction fuel with
  | zero =>
    intro fuel' data h _
    have : data = [] := List.length_eq_zero.mp (by omega)
    subst this
    cases fuel' <;> rfl
  | succ fuel ih =>
    intro fuel' data h h'
    cases data with
    | nil => cases fuel' <;> rfl
    | cons a rest =>
      cases fuel' with
      | zero => simp at h'
      | succ fuel' =>
        simp only [toBlocksGo]
        rw [ih fuel' ((a :: rest).drop 16)
          (by simp only [List.length_drop, List.length_cons] at h ⊢; omega)
          (by simp only [List.length_drop, List.length_cons] at h' ⊢; omega)]

/-- The defining recurrence of `toBlocks`. -/
theorem toBlocks_eq (data : List Nat) :
    toBlocks data = if data = [] then [] else data.take 16 :: toBlocks (data.drop 16) := by
  cases data with
  | nil => rfl
  | cons a rest =>
    rw [if_neg (by simp)]
    show toBlocksGo (rest.length + 1) (a :: rest) = _
    simp only [toBlocksGo]
    unfold toBlocks
    rw [toBlocksGo_congr rest.length ((a :: rest).drop 16).length ((a :: rest).drop 16)
      (by simp only [List.length_drop, List.length_cons]; omega) (le_refl _)]

/-- CBC encryption chaining: each plaintext block is xored with the previous
ciphertext block (initially the IV) before entering the block cipher. -/
def cbcEncryptBlocks (encB : List Nat → List Nat) (prev : List Nat) :
    List (List Nat) → List (List Nat)
  | [] => []
  | p :: ps =>
    encB (xorBytes prev p) :: cbcEncryptBlocks encB (encB (xorBytes prev p)) ps

/-- CBC decryption chaining. -/
def cbcDecryptBlocks (decB : List Nat → List Nat) (prev : List Nat) :
    List (List Nat) → List (List Nat)
  | [] => []
  | c :: cs => xorBytes prev (decB c) :: cbcDecryptBlocks decB c cs

/-- `aesCbcEncrypt`: fails fast on key/IV length, pads the plaintext, then
runs CBC. -/
def aesCbcEncrypt (encBlock : List Nat → List Nat → List Nat)
    (key plainText iv : List Nat) : Except String (List Nat) :=
  if key.length ≠ Aes128KeyLen then .error "Incorrect key length"
  else if iv.length ≠ Aes128KeyLen then .error "Incorrect IV length"
  else .ok (cbcEncryptBlocks (encBlock key) iv (toBlocks (aesAddPadding plainText))).flatten

/-- `aesCbcDecrypt`: fails fast on key/IV length, runs CBC, strips padding.
Go's `CryptBlocks` panics when the ciphertext is not whole blocks; that
panic is modelled as an error. -/
def aesCbcDecrypt (decBlock : List Nat → List Nat → List Nat)
    (key cipherText iv : List Nat) : Except String (List Nat) :=
  if key.length ≠ Aes128KeyLen then .error "Incorrect key length"
  else if iv.length ≠ Aes128KeyLen then .error "Incorrect IV length"
  else if cipherText.length % AesBlockLen ≠ 0 then .error "input not full blocks"
  else aesStripPadding (cbcDecryptBlocks (decBlock key) iv (toBlocks cipherText)).flatten

/-! ## OpenSSL-style MD5 key derivation (onepass/vault.go: openSslKey) -/

/-- `openSslKey`: Key = MD5(password ‖ salt), IV = MD5(Key ‖ password ‖ salt). -/
def openSslKey (md5f : List Nat → List Nat) (password salt : List Nat) :
    List Nat × List Nat :=
  let data := password ++ salt
  let h0 := md5f data
  let h1 := md5f (h0 ++ data)
  (h0, h1)

/-! ## Key envelope (onepass/vault.go: encryptKey / decryptKey) -/

/-- `encryptKey`: derives a 32-byte block from the master password with
PBKDF2, uses its halves as AES key and IV to encrypt the item key, and
builds the self-check `validation` envelope ("Salted__" ‖ validationSalt ‖
AES-CBC of the item key under a key/IV derived from the item key itself).
`validationSalt` stands for the `randomBytes(8)` drawn inside the Go
function. -/
def encryptKey (encBlock : List Nat → List Nat → List Nat)
    (md5f : List Nat → List Nat)
    (pbkdf2f : List Nat → List Nat → Nat → Nat → List Nat)
    (masterPwd decryptedKey salt : List Nat) (iterCount : Nat)
    (validationSalt : List Nat) : Except String (List Nat × List Nat) :=
  let derivedKey := pbkdf2f masterPwd salt iterCount 32
  let aesKey := derivedKey.take 16
  let iv := (derivedKey.drop 16).take 16
  match aesCbcEncrypt encBlock aesKey decryptedKey iv with
  | .error e => .error e
  | .ok encryptedKey =>
    let kdf := openSslKey md5f decryptedKey validationSalt
    match aesCbcEncrypt encBlock kdf.1 decryptedKey kdf.2 with
    | .error e => .error ("Failed to encrypt validation: " ++ e)
    | .ok validationCipherText =>
      .ok (encryptedKey, saltMagic ++ validationSalt ++ validationCipherText)

/-- `decryptKey`: the inverse path, ending with the validation self-check;
a mismatch is the `BadMasterPassword` signal ("Validation decryption
failed"). -/
def decryptKey (decBlock : List Nat → List Nat → List Nat)
    (md5f : List Nat → List Nat)
    (pbkdf2f : List Nat → List Nat → Nat → Nat → List Nat)
    (masterPwd encryptedKey salt : List Nat) (iterCount : Nat)
    (validation : List Nat) : Except String (List Nat) :=
  let derivedKey := pbkdf2f masterPwd salt iterCount 32
  let aesKey := derivedKey.take 16
  let iv := (derivedKey.drop 16).take 16
  match aesCbcDecrypt decBlock aesKey encryptedKey iv with
  | .error e => .error e
  | .ok decryptedKey =>
    match extractSaltAndCipherText validation with
    | .error e => .error ("Invalid validation: " ++ e)
    | .ok (validationSalt, validationCipherText) =>
      let kdf := openSslKey md5f decryptedKey validationSalt
      match aesCbcDecrypt decBlock kdf.1 validationCipherText kdf.2 with
      | .error e => .error ("Failed to decrypt validation: " ++ e)
      | .ok decryptedValidation =>
        if decryptedValidation = decryptedKey then .ok decryptedKey
        else .error "Validation decryption failed"

/-! ## Round-trip lemmas for the CBC pipeline -/

theorem xorBytes_length (a b : List Nat) :
    (xorBytes a b).length = min a.length b.length :=
  List.length_zipWith _ _ _

theorem xorBytes_cancel (a : List Nat) : ∀ b : List Nat, a.length = b.length →
    xorBytes a (xorBytes a b) = b := by
  induction a with
  | nil =>
    intro b h
    cases b with
    | nil => rfl
    | cons y ys => simp at h
  | cons x xs ih =>
    intro b h
    cases b with
    | nil => simp at h
    | cons y ys =>
      simp only [xorBytes, List.zipWith_cons_cons] at *
      refine congrArg₂ List.cons ?_ (ih ys (by simpa using h))
      show x ^^^ (x ^^^ y) = y
      rw [← Nat.xor_assoc, Nat.xor_self, Nat.zero_xor]

theorem toBlocks_nil : toBlocks [] = [] := rfl

theorem flatten_toBlocks (l : List Nat) : (toBlocks l).flatten = l := by
  rw [toBlocks_eq]
  by_cases h : l = []
  · rw [if_pos h, h]
    rfl
  · rw [if_neg h]
    simp only [List.flatten_cons]
    rw [flatten_toBlocks (l.drop 16), List.take_append_drop]
termination_by l.length
decreasing_by
  rw [List.length_drop]
  have hpos : 0 < l.length := List.length_pos.mpr h
  omega

theorem toBlocks_block_length (l : List Nat) (hdvd : l.length % 16 = 0) :
    ∀ b ∈ toBlocks l, b.length = 16 := by
  intro b hb
  rw [toBlocks_eq] at hb
  by_cases h : l = []
  · rw [if_pos h] at hb
    simp at hb
  · rw [if_neg h] at hb
    have hpos : 0 < l.length := List.length_pos.mpr h
    have h16 : 16 ≤ l.length := by omega
    rcases List.mem_cons.mp hb with hb | hb
    · rw [hb, List.length_take]
      omega
    · exact toBlocks_block_length (l.drop 16) (by rw [List.length_drop]; omega) b hb
termination_by l.length
decreasing_by
  rw [List.length_drop]
  have hpos : 0 < l.length := List.length_pos.mpr h
  omega

theorem toBlocks_flatten (bs : List (List Nat)) (h : ∀ b ∈ bs, b.length = 16) :
    toBlocks bs.flatten = bs := by
  induction bs with
  | nil => simp [toBlocks_nil]
  | cons b rest ih =>
    have hb : b.length = 16 := h b (by simp)
    have hbne : b ≠ [] := by
      intro hcon
      rw [hcon] at hb
      simp at hb
    have hne : b ++ rest.flatten ≠ [] := by
      intro hcon
      exact hbne (List.append_eq_nil.mp hcon).1
    rw [List.flatten_cons, toBlocks_eq, if_neg hne, List.take_left' hb,
      List.drop_left' hb, ih (fun x hx => h x (by simp [hx]))]

theorem flatten_length_mod (bs : List (List Nat)) (h : ∀ b ∈ bs, b.length = 16) :
    bs.flatten.length % 16 = 0 := by
  induction bs with
  | nil => simp
  | cons b rest ih =>
    rw [List.flatten_cons, List.length_append, h b (by simp),
      Nat.add_mod, ih (fun x hx => h x (by simp [hx]))]

theorem cbcEncryptBlocks_block_length (encB : List Nat → List Nat)
    (hlen : ∀ b, b.length = 16 → (encB b).length = 16) :
    ∀ (ps : List (List Nat)) (prev : List Nat), prev.length = 16 →
      (∀ p ∈ ps, p.length = 16) →
      ∀ c ∈ cbcEncryptBlocks encB prev ps, c.length = 16 := by
  intro ps
  induction ps with
  | nil => simp [cbcEncryptBlocks]
  | cons p rest ih =>
    intro prev hprev hps c hc
    have hp : p.length = 16 := hps p (by simp)
    have hx : (xorBytes prev p).length = 16 := by
      rw [xorBytes_length, hprev, hp]
      simp
    have hc16 : (encB (xorBytes prev p)).length = 16 := hlen _ hx
    rcases List.mem_cons.mp hc with hc | hc
    · exact hc ▸ hc16
    · exact ih (encB (xorBytes prev p)) hc16 (fun x hx => hps x (by simp [hx])) c hc

theorem cbcDecryptBlocks_cbcEncryptBlocks (encB decB : List Nat → List Nat)
    (hinv : ∀ b, b.length = 16 → decB (encB b) = b)
    (hlen : ∀ b, b.length = 16 → (encB b).length = 16) :
    ∀ (ps : List (List Nat)) (prev : List Nat), prev.length = 16 →
      (∀ p ∈ ps, p.length = 16) →
      cbcDecryptBlocks decB prev (cbcEncryptBlocks encB prev ps) = ps := by
  intro ps
  induction ps with
  | nil => intro prev _ _; rfl
  | cons p rest ih =>
    intro prev hprev hps
    have hp : p.length = 16 := hps p (by simp)
    have hx : (xorBytes prev p).length = 16 := by
      rw [xorBytes_length, hprev, hp]
      simp
    rw [cbcEncryptBlocks, cbcDecryptBlocks, hinv _ hx,
      xorBytes_cancel prev p (by rw [hprev, hp]),
      ih (encB (xorBytes prev p)) (hlen _ hx) (fun x hx => hps x (by simp [hx]))]

theorem aesAddPadding_length_mod (data : List Nat) :
    (aesAddPadding data).length % 16 = 0 := by
  simp only [aesAddPadding, AesBlockLen, List.length_append, List.length_replicate]
  omega

theorem aesStripPadding_aesAddPadding (data : List Nat) :
    aesStripPadding (aesAddPadding data) = .ok data := by
  have hmod := aesAddPadding_length_mod data
  have hr : data.length % 16 < 16 := Nat.mod_lt _ (by omega)
  have hlast : (aesAddPadding data).getLast? = some (16 - data.length % 16) := by
    unfold aesAddPadding
    simp only [AesBlockLen]
    rw [List.getLast?_append_of_ne_nil]
    · rcases Nat.exists_eq_add_of_lt hr with ⟨m, hm⟩
      have hpl : 16 - data.length % 16 = m + 1 := by omega
      rw [hpl, List.replicate_succ', List.getLast?_concat]
    · intro hcon
      have := congrArg List.length hcon
      simp only [List.length_replicate, List.length_nil] at this
      omega
  have hlen : (aesAddPadding data).length = data.length + (16 - data.length % 16) := by
    simp [aesAddPadding, AesBlockLen]
  have htake : (aesAddPadding data).take data.length = data := by
    unfold aesAddPadding
    simp only [AesBlockLen]
    rw [List.take_left' rfl]
  unfold aesStripPadding
  rw [if_neg (by simp only [AesBlockLen]; omega)]
  simp only [hlast, gt_iff_lt]
  rw [if_neg (by omega), hlen]
  rw [show data.length + (16 - data.length % 16) - (16 - data.length % 16) = data.length
    from by omega]
  rw [htake]

theorem aesCbcEncrypt_ok (encBlock : List Nat → List Nat → List Nat)
    (key pt iv : List Nat) (hkey : key.length = 16) (hiv : iv.length = 16) :
    aesCbcEncrypt encBlock key pt iv =
      .ok (cbcEncryptBlocks (encBlock key) iv (toBlocks (aesAddPadding pt))).flatten := by
  unfold aesCbcEncrypt
  rw [if_neg (by simp [Aes128KeyLen, hkey]), if_neg (by simp [Aes128KeyLen, hiv])]

/-- CBC round trip: decrypting an `aesCbcEncrypt` output with the same key
and IV recovers the plaintext, provided the block cipher inverts. -/
theorem aesCbcDecrypt_aesCbcEncrypt (encBlock decBlock : List Nat → List Nat → List Nat)
    (key pt iv ct : List Nat) (hkey : key.length = 16) (hiv : iv.length = 16)
    (hinv : ∀ b, b.length = 16 → decBlock key (encBlock key b) = b)
    (hlen : ∀ b, b.length = 16 → (encBlock key b).length = 16)
    (henc : aesCbcEncrypt encBlock key pt iv = .ok ct) :
    aesCbcDecrypt decBlock key ct iv = .ok pt := by
  rw [aesCbcEncrypt_ok encBlock key pt iv hkey hiv] at henc
  have hct : ct = (cbcEncryptBlocks (encBlock key) iv (toBlocks (aesAddPadding pt))).flatten := by
    cases henc
    rfl
  have hpb : ∀ b ∈ toBlocks (aesAddPadding pt), b.length = 16 :=
    toBlocks_block_length _ (aesAddPadding_length_mod pt)
  have hcb : ∀ c ∈ cbcEncryptBlocks (encBlock key) iv (toBlocks (aesAddPadding pt)),
      c.length = 16 :=
    cbcEncryptBlocks_block_length (encBlock key) hlen _ iv hiv hpb
  have hctmod : ct.length % 16 = 0 := by
    rw [hct]
    exact flatten_length_mod _ hcb
  unfold aesCbcDecrypt
  rw [if_neg (by simp [Aes128KeyLen, hkey]), if_neg (by simp [Aes128KeyLen, hiv]),
    if_neg (by simp only [AesBlockLen]; omega)]
  rw [hct, toBlocks_flatten _ hcb,
    cbcDecryptBlocks_cbcEncryptBlocks (encBlock key) (decBlock key) hinv hlen _ iv hiv hpb,
    flatten_toBlocks, aesStripPadding_aesAddPadding]

/-- When the PBKDF2 output and MD5 digests have the lengths the real
primitives guarantee, `encryptKey` always succeeds, with this explicit
result. -/
theorem encryptKey_ok (encBlock : List Nat → List Nat → List Nat)
    (md5f : List Nat → List Nat)
    (pbkdf2f : List Nat → List Nat → Nat → Nat → List Nat)
    (masterPwd k salt : List Nat) (iterCount : Nat) (validationSalt : List Nat)
    (hak : ((pbkdf2f masterPwd salt iterCount 32).take 16).length = 16)
    (hai : (((pbkdf2f masterPwd salt iterCount 32).drop 16).take 16).length = 16)
    (hvk : ((openSslKey md5f k validationSalt).1).length = 16)
    (hvi : ((openSslKey md5f k validationSalt).2).length = 16) :
    encryptKey encBlock md5f pbkdf2f masterPwd k salt iterCount validationSalt =
      .ok ((cbcEncryptBlocks (encBlock ((pbkdf2f masterPwd salt iterCount 32).take 16))
          (((pbkdf2f masterPwd salt iterCount 32).drop 16).take 16)
          (toBlocks (aesAddPadding k))).flatten,
        saltMagic ++ validationSalt ++
          (cbcEncryptBlocks (encBlock (openSslKey md5f k validationSalt).1)
            (openSslKey md5f k validationSalt).2 (toBlocks (aesAddPadding k))).flatten) := by
  simp only [encryptKey,
    aesCbcEncrypt_ok encBlock ((pbkdf2f masterPwd salt iterCount 32).take 16) k
      (((pbkdf2f masterPwd salt iterCount 32).drop 16).take 16) hak hai,
    aesCbcEncrypt_ok encBlock (openSslKey md5f k validationSalt).1 k
      (openSslKey md5f k validationSalt).2 hvk hvi]

/-! ## Claim C7: key envelope round trip -/

/-- C7 (confirmed): for every password, 1024-byte key, 8-byte salts and
iteration count ≥ 1, `decryptKey` applied to the outputs of `encryptKey`
(with the same password, salt and iteration count) succeeds and returns
exactly the key.  The AES block cipher, MD5 and PBKDF2 enter as parameters
with the properties the code relies on as hypotheses. -/
theorem decryptKey_encryptKey_roundtrip
    (encBlock decBlock : List Nat → List Nat → List Nat)
    (md5f : List Nat → List Nat)
    (pbkdf2f : List Nat → List Nat → Nat → Nat → List Nat)
    (hinv : ∀ key b, key.length = 16 → b.length = 16 →
      decBlock key (encBlock key b) = b)
    (hlen : ∀ key b, key.length = 16 → b.length = 16 →
      (encBlock key b).length = 16)
    (hmd5 : ∀ x, (md5f x).length = 16)
    (hpb : ∀ pwd s it n, (pbkdf2f pwd s it n).length = n)
    (masterPwd k salt validationSalt : List Nat) (iterCount : Nat)
    (hk : k.length = 1024) (hs : salt.length = 8)
    (hvs : validationSalt.length = 8) (hit : 1 ≤ iterCount)
    (ek validation : List Nat)
    (henc : encryptKey encBlock md5f pbkdf2f masterPwd k salt iterCount
      validationSalt = .ok (ek, validation)) :
    decryptKey decBlock md5f pbkdf2f masterPwd ek salt iterCount validation = .ok k := by
  have hak : ((pbkdf2f masterPwd salt iterCount 32).take 16).length = 16 := by
    rw [List.length_take, hpb]
    omega
  have hai : (((pbkdf2f masterPwd salt iterCount 32).drop 16).take 16).length = 16 := by
    rw [List.length_take, List.length_drop, hpb]
    omega
  have hvk : ((openSslKey md5f k validationSalt).1).length = 16 := hmd5 _
  have hvi : ((openSslKey md5f k validationSalt).2).length = 16 := hmd5 _
  have hcm := aesCbcEncrypt_ok encBlock ((pbkdf2f masterPwd salt iterCount 32).take 16) k
    (((pbkdf2f masterPwd salt iterCount 32).drop 16).take 16) hak hai
  have hcv := aesCbcEncrypt_ok encBlock (openSslKey md5f k validationSalt).1 k
    (openSslKey md5f k validationSalt).2 hvk hvi
  simp only [encryptKey, hcm, hcv, Except.ok.injEq, Prod.mk.injEq] at henc
  obtain ⟨hek, hval⟩ := henc
  have hdec1 : aesCbcDecrypt decBlock ((pbkdf2f masterPwd salt iterCount 32).take 16) ek
      (((pbkdf2f masterPwd salt iterCount 32).drop 16).take 16) = .ok k := by
    rw [← hek]
    exact aesCbcDecrypt_aesCbcEncrypt encBlock decBlock _ k _ _ hak hai
      (fun b hb => hinv _ b hak hb) (fun b hb => hlen _ b hak hb) hcm
  have hsm : saltMagic.length = 8 := rfl
  have hex : extractSaltAndCipherText validation =
      .ok (validationSalt, (cbcEncryptBlocks (encBlock (openSslKey md5f k validationSalt).1)
        (openSslKey md5f k validationSalt).2 (toBlocks (aesAddPadding k))).flatten) := by
    rw [← hval]
    unfold extractSaltAndCipherText
    rw [if_neg (by simp only [List.length_append, hsm, hvs]; omega)]
    rw [List.append_assoc, List.drop_left' hsm, List.take_left' hvs]
    rw [show (16 : Nat) = 8 + 8 from rfl, ← List.drop_drop,
      List.drop_left' hsm, List.drop_left' hvs]
  have hdec2 : aesCbcDecrypt decBlock (openSslKey md5f k validationSalt).1
      (cbcEncryptBlocks (encBlock (openSslKey md5f k validationSalt).1)
        (openSslKey md5f k validationSalt).2 (toBlocks (aesAddPadding k))).flatten
      (openSslKey md5f k validationSalt).2 = .ok k :=
    aesCbcDecrypt_aesCbcEncrypt encBlock decBlock _ k _ _ hvk hvi
      (fun b hb => hinv _ b hvk hb) (fun b hb => hlen _ b hvk hb) hcv
  simp only [decryptKey, hdec1, hex, hdec2, if_pos]

/-! Concrete primitive instantiations used by witnesses: a keyed XOR block
"cipher" (which satisfies the inversion and length facts assumed of
AES-128), a constant 16-byte hash, and a zero-filled PBKDF2. -/

def xorCipherBlock (key b : List Nat) : List Nat := xorBytes key b

def constMd5 (_x : List Nat) : List Nat := List.replicate 16 0

def zeroPbkdf2 (_pwd _salt : List Nat) (_it n : Nat) : List Nat := List.replicate n 0

theorem xorCipherBlock_inv (key b : List Nat) (hkey : key.length = 16)
    (hb : b.length = 16) : xorCipherBlock key (xorCipherBlock key b) = b := by
  unfold xorCipherBlock
  exact xorBytes_cancel key b (by rw [hkey, hb])

theorem xorCipherBlock_length (key b : List Nat) (hkey : key.length = 16)
    (hb : b.length = 16) : (xorCipherBlock key b).length = 16 := by
  unfold xorCipherBlock
  rw [xorBytes_length, hkey, hb]
  omega

def c7Key : List Nat := List.replicate 1024 7

def c7Salt : List Nat := List.replicate 8 0

/-- Witness for C7's theorem: a concrete 1024-byte key round-trips through
`encryptKey`/`decryptKey` with the XOR block cipher. -/
theorem decryptKey_encryptKey_roundtrip_witness :
    c7Key.length = 1024 ∧
    (match encryptKey xorCipherBlock constMd5 zeroPbkdf2 [] c7Key c7Salt 1 c7Salt with
      | .ok p => decryptKey xorCipherBlock constMd5 zeroPbkdf2 [] p.1 c7Salt 1 p.2 =
          .ok c7Key
      | .error _ => False) := by
  have hak : ((zeroPbkdf2 [] c7Salt 1 32).take 16).length = 16 := by
    rw [List.length_take, zeroPbkdf2, List.length_replicate]
    omega
  have hai : (((zeroPbkdf2 [] c7Salt 1 32).drop 16).take 16).length = 16 := by
    rw [List.length_take, List.length_drop, zeroPbkdf2, List.length_replicate]
    omega
  have hvk : ((openSslKey constMd5 c7Key c7Salt).1).length = 16 := by
    simp only [openSslKey, constMd5, List.length_replicate]
  have hvi : ((openSslKey constMd5 c7Key c7Salt).2).length = 16 := by
    simp only [openSslKey, constMd5, List.length_replicate]
  have henc := encryptKey_ok xorCipherBlock constMd5 zeroPbkdf2 [] c7Key c7Salt 1 c7Salt
    hak hai hvk hvi
  refine ⟨by rw [c7Key, List.length_replicate], ?_⟩
  simp only [henc]
  exact decryptKey_encryptKey_roundtrip xorCipherBlock xorCipherBlock constMd5 zeroPbkdf2
    xorCipherBlock_inv xorCipherBlock_length
    (fun x => by rw [constMd5, List.length_replicate])
    (fun pwd s it n => by rw [zeroPbkdf2, List.length_replicate])
    [] c7Key c7Salt c7Salt 1
    (by rw [c7Key, List.length_replicate]) (by rw [c7Salt, List.length_replicate])
    (by rw [c7Salt, List.length_replicate]) (by omega)
    _ _ henc

/-! ## Agent RPC argument structures (agent.go) -/

structure CryptArgs where
  vaultPath : String
  keyName : String
  data : List Nat
deriving DecidableEq, Repr

/-- `OnePassAgentClient.Encrypt`: the `CryptArgs` value sent over RPC.  The
Go composite literal populates only `VaultPath` and `KeyName`; `Data` is
left at its zero value (nil slice), so the caller's input `inp` is unused. -/
def clientEncryptArgs (vaultPath keyName : String) (_inp : List Nat) : CryptArgs :=
  { vaultPath := vaultPath, keyName := keyName, data := [] }

/-- `OnePassAgentClient.Decrypt`: the `CryptArgs` value sent over RPC; here
`Data` is populated with the caller's input. -/
def clientDecryptArgs (vaultPath keyName : String) (inp : List Nat) : CryptArgs :=
  { vaultPath := vaultPath, keyName := keyName, data := inp }

/-! ## Claim C2: the agent client's Encrypt ignores its input payload -/

/-- C2 (confirmed): for every key name and any two payloads, the client's
`Encrypt` sends identical RPC arguments with an unpopulated `Data` field,
while `Decrypt` passes its input through. -/
theorem client_encrypt_ignores_input (vaultPath keyName : String) (in1 in2 : List Nat) :
    clientEncryptArgs vaultPath keyName in1 = clientEncryptArgs vaultPath keyName in2 ∧
    (clientEncryptArgs vaultPath keyName in1).data = [] ∧
    (clientDecryptArgs vaultPath keyName in1).data = in1 := by
  refine ⟨rfl, rfl, rfl⟩

/-! ## Claim C3: padding strip bounds -/

/-- C3 (code bug): evaluation of `aesStripPadding` at a 16-byte block whose
last byte is `0`.  The padding value `0` lies outside `1..=16`, yet the code
accepts it and strips nothing, because the guard only checks
`paddingLen > 16`. -/
theorem aesStripPadding_accepts_zero :
    aesStripPadding (List.replicate 16 0) = .ok (List.replicate 16 0) := by
  decide

/-! ## Claim C4: envelope unpack -/

/-- C4 counterexample: a 16-byte input of zeros does not begin with the
magic "Salted__", yet the unpack used by the readers still returns bytes
8..16 as a (non-empty) salt rather than treating the whole input as
ciphertext with no salt. -/
theorem extractSaltAndCipherText_no_magic_fallback :
    extractSaltAndCipherText (List.replicate 16 0) =
      .ok (List.replicate 8 0, []) ∧
    extractSaltAndCipherText (List.replicate 16 0) ≠
      .ok ([], List.replicate 16 0) := by
  decide

/-- C4 (corrected): the onepass unpack requires length ≥ 16 and returns
bytes 8..16 and 16.. regardless of the magic; only the legacy root-package
unpack falls back to treating a (sufficiently long) non-magic input as all
ciphertext with no salt. -/
theorem extractSaltAndCipherText_spec (data : List Nat) (h : 16 ≤ data.length)
    (legacyData : List Nat) (h8 : 8 ≤ legacyData.length)
    (hm : legacyData.take 8 ≠ saltMagic) :
    extractSaltAndCipherText data = .ok ((data.drop 8).take 8, data.drop 16) ∧
    extractSaltAndCipherTextLegacy legacyData = some ([], legacyData) := by
  constructor
  · unfold extractSaltAndCipherText
    rw [if_neg (by omega)]
  · unfold extractSaltAndCipherTextLegacy
    rw [if_neg (by omega), if_neg hm]

/-- Witness for C4's theorem at concrete inputs. -/
theorem extractSaltAndCipherText_spec_witness :
    16 ≤ (List.replicate 16 1).length ∧
    8 ≤ (List.replicate 8 2).length ∧
    (List.replicate 8 2).take 8 ≠ saltMagic ∧
    (extractSaltAndCipherText (List.replicate 16 1) =
      .ok (((List.replicate 16 1).drop 8).take 8, (List.replicate 16 1).drop 16) ∧
     extractSaltAndCipherTextLegacy (List.replicate 8 2) = some ([], List.replicate 8 2)) :=
  ⟨by decide, by decide, by decide,
    extractSaltAndCipherText_spec (List.replicate 16 1) (by decide)
      (List.replicate 8 2) (by decide) (by decide)⟩

/-! ## Item data encryption helpers (onepass/vault.go: EncryptItemData /
DecryptItemData).  `salt` stands for the `randomBytes(8)` drawn inside
`EncryptItemData`. -/

def EncryptItemData (encBlock : List Nat → List Nat → List Nat)
    (md5f : List Nat → List Nat) (itemKey data salt : List Nat) :
    Except String (List Nat) :=
  if itemKey.length ≠ agileKeychainKeyLen then
    .error "unexpected item key length"
  else
    match aesCbcEncrypt encBlock (openSslKey md5f itemKey salt).1 data
        (openSslKey md5f itemKey salt).2 with
    | .error e => .error e
    | .ok encryptedData => .ok (saltMagic ++ salt ++ encryptedData)

def DecryptItemData (decBlock : List Nat → List Nat → List Nat)
    (md5f : List Nat → List Nat) (itemKey data : List Nat) :
    Except String (List Nat) :=
  if itemKey.length ≠ agileKeychainKeyLen then
    .error "unexpected item key length"
  else
    match extractSaltAndCipherText data with
    | .error e => .error ("Invalid encrypted item data: " ++ e)
    | .ok sc =>
      aesCbcDecrypt decBlock (openSslKey md5f itemKey sc.1).1 sc.2
        (openSslKey md5f itemKey sc.1).2

/-! ## Key agent server state (agent.go: OnePassAgent) -/

/-- `OnePassAgent.keys`: map from vault path to the vault's key dictionary.
A vault path absent from the outer map behaves like Go's nil `KeyDict`:
every key lookup on it misses. -/
structure OnePassAgentState where
  keys : List (String × List (String × List Nat))

/-- The combined two-level map lookup `agent.keys[args.VaultPath][args.KeyName]`. -/
def agentItemKey (st : OnePassAgentState) (vaultPath keyName : String) :
    Option (List Nat) :=
  match st.keys.lookup vaultPath with
  | none => none
  | some dict => dict.lookup keyName

/-- `OnePassAgent.Encrypt`: a single two-level lookup; the only failure for a
missing vault or a missing key level is the error "No such key". -/
def OnePassAgent.encryptRPC (encBlock : List Nat → List Nat → List Nat)
    (md5f : List Nat → List Nat) (salt : List Nat)
    (st : OnePassAgentState) (args : CryptArgs) : Except String (List Nat) :=
  match agentItemKey st args.vaultPath args.keyName with
  | none => .error "No such key"
  | some itemKey => EncryptItemData encBlock md5f itemKey args.data salt

/-- `OnePassAgent.Decrypt`: same lookup and same error as `Encrypt`. -/
def OnePassAgent.decryptRPC (decBlock : List Nat → List Nat → List Nat)
    (md5f : List Nat → List Nat)
    (st : OnePassAgentState) (args : CryptArgs) : Except String (List Nat) :=
  match agentItemKey st args.vaultPath args.keyName with
  | none => .error "No such key"
  | some itemKey => DecryptItemData decBlock md5f itemKey args.data

/-! ## Claim C6: agent error discrimination -/

/-- C6 counterexample: with the vault not unlocked (empty agent map) and
with the vault unlocked but the key level absent, `Encrypt` and `Decrypt`
return the very same error value "No such key" — the two failure causes
are not distinguishable by the returned error, and no distinct
NoSuchVault-style error exists. -/
theorem agent_errors_not_distinct :
    OnePassAgent.encryptRPC xorCipherBlock constMd5 []
        ⟨[]⟩ ⟨"/v", "SL5", [1]⟩ = .error "No such key" ∧
    OnePassAgent.encryptRPC xorCipherBlock constMd5 []
        ⟨[("/v", [])]⟩ ⟨"/v", "SL5", [1]⟩ = .error "No such key" ∧
    OnePassAgent.decryptRPC xorCipherBlock constMd5
        ⟨[]⟩ ⟨"/v", "SL5", [1]⟩ = .error "No such key" ∧
    OnePassAgent.decryptRPC xorCipherBlock constMd5
        ⟨[("/v", [])]⟩ ⟨"/v", "SL5", [1]⟩ = .error "No such key" := by
  refine ⟨rfl, rfl, rfl, rfl⟩

/-- C6 (corrected): whenever the named vault is not unlocked, or it is
unlocked but the key level is absent, both RPCs fail with the single error
"No such key"; the two causes are not distinguishable. -/
theorem agent_encrypt_decrypt_single_error
    (encBlock decBlock : List Nat → List Nat → List Nat)
    (md5f : List Nat → List Nat) (salt : List Nat)
    (st : OnePassAgentState) (args : CryptArgs)
    (h : st.keys.lookup args.vaultPath = none ∨
      ∃ dict, st.keys.lookup args.vaultPath = some dict ∧
        dict.lookup args.keyName = none) :
    OnePassAgent.encryptRPC encBlock md5f salt st args = .error "No such key" ∧
    OnePassAgent.decryptRPC decBlock md5f st args = .error "No such key" := by
  have hnone : agentItemKey st args.vaultPath args.keyName = none := by
    unfold agentItemKey
    rcases h with h | ⟨dict, h1, h2⟩
    · simp only [h]
    · simp only [h1, h2]
  constructor
  · unfold OnePassAgent.encryptRPC
    rw [hnone]
  · unfold OnePassAgent.decryptRPC
    rw [hnone]

/-- Witness for C6's theorem: the vault-not-unlocked cause at a concrete
state. -/
theorem agent_encrypt_decrypt_single_error_witness :
    (OnePassAgentState.mk []).keys.lookup "/v" = none ∧
    (OnePassAgent.encryptRPC xorCipherBlock constMd5 [] ⟨[]⟩ ⟨"/v", "SL5", [2]⟩ =
        .error "No such key" ∧
      OnePassAgent.decryptRPC xorCipherBlock constMd5 ⟨[]⟩ ⟨"/v", "SL5", [2]⟩ =
        .error "No such key") :=
  ⟨rfl, agent_encrypt_decrypt_single_error xorCipherBlock xorCipherBlock constMd5 []
    ⟨[]⟩ ⟨"/v", "SL5", [2]⟩ (Or.inl rfl)⟩

/-! ## Key store and vault lock state (onepass/vault.go: encKeyEntry,
encryptionKeys, UnlockKeys, simpleCryptoAgent, Vault.Unlock / IsLocked) -/

structure EncKeyEntry where
  data : List Nat
  identifier : String
  iterations : Nat
  level : String
  validation : List Nat

structure EncryptionKeys where
  list : List EncKeyEntry
  sl5 : String

/-- Go map assignment `keys[level] = v`: replace an existing binding or
append a new one. -/
def keyDictInsert (d : List (String × List Nat)) (k : String) (v : List Nat) :
    List (String × List Nat) :=
  if d.any (fun p => p.1 == k) then
    d.map (fun p => if p.1 == k then (k, v) else p)
  else
    d ++ [(k, v)]

/-- The entry loop of `UnlockKeys`.  Mirrors the Go multiple-return idiom:
the first component is the `KeyDict` value returned (`some []`, the non-nil
empty literal `KeyDict{}`, on every error path) and the second the error. -/
def unlockKeysLoop (decBlock : List Nat → List Nat → List Nat)
    (md5f : List Nat → List Nat)
    (pbkdf2f : List Nat → List Nat → Nat → Nat → List Nat)
    (pwd : List Nat) :
    List EncKeyEntry → List (String × List Nat) →
    Option (List (String × List Nat)) × Option String
  | [], acc => (some acc, none)
  | entry :: rest, acc =>
    if entry.data.length ≠ 1056 then
      (some [], some "Unexpected encrypted key length")
    else
      match extractSaltAndCipherText entry.data with
      | .error e => (some [], some ("Invalid encrypted data: " ++ e))
      | .ok sc =>
        match decryptKey decBlock md5f pbkdf2f pwd sc.2 sc.1 entry.iterations
            entry.validation with
        | .error e => (some [], some ("Failed to decrypt main key: " ++ e))
        | .ok decryptedKey =>
          unlockKeysLoop decBlock md5f pbkdf2f pwd rest
            (keyDictInsert acc entry.level decryptedKey)

/-- `UnlockKeys`: reading the encryption-keys file is modelled by the
`readResult` parameter. -/
def UnlockKeysM (decBlock : List Nat → List Nat → List Nat)
    (md5f : List Nat → List Nat)
    (pbkdf2f : List Nat → List Nat → Nat → Nat → List Nat)
    (readResult : Except String EncryptionKeys) (pwd : List Nat) :
    Option (List (String × List Nat)) × Option String :=
  match readResult with
  | .error _ => (some [], some "Failed to read encryption key file")
  | .ok keyList => unlockKeysLoop decBlock md5f pbkdf2f pwd keyList.list []

/-- `simpleCryptoAgent`: `keys` is a possibly-nil Go map (`none` = nil). -/
structure SimpleCryptoAgent where
  keys : Option (List (String × List Nat))

/-- `simpleCryptoAgent.IsLocked`: `agent.keys == nil`. -/
def SimpleCryptoAgent.isLocked (a : SimpleCryptoAgent) : Bool := a.keys.isNone

structure VaultM where
  path : String
  cryptoAgent : Option SimpleCryptoAgent

/-- `Vault.Unlock`: the crypto agent is installed with whatever key dict
`UnlockKeys` returned — even when `UnlockKeys` also returned an error — and
the error is passed through. -/
def VaultM.unlock (decBlock : List Nat → List Nat → List Nat)
    (md5f : List Nat → List Nat)
    (pbkdf2f : List Nat → List Nat → Nat → Nat → List Nat)
    (readResult : Except String EncryptionKeys) (pwd : List Nat)
    (v : VaultM) : VaultM × Option String :=
  (VaultM.mk v.path
    (some (SimpleCryptoAgent.mk (UnlockKeysM decBlock md5f pbkdf2f readResult pwd).1)),
    (UnlockKeysM decBlock md5f pbkdf2f readResult pwd).2)

/-- `Vault.IsLocked`: true when no agent is set, otherwise the agent's
answer (`simpleCryptoAgent.IsLocked` never returns an error). -/
def VaultM.isLocked (v : VaultM) : Bool :=
  match v.cryptoAgent with
  | none => true
  | some a => a.isLocked

theorem unlockKeysLoop_fst_isSome (decBlock : List Nat → List Nat → List Nat)
    (md5f : List Nat → List Nat)
    (pbkdf2f : List Nat → List Nat → Nat → Nat → List Nat) (pwd : List Nat) :
    ∀ (entries : List EncKeyEntry) (acc : List (String × List Nat)),
      ((unlockKeysLoop decBlock md5f pbkdf2f pwd entries acc).1).isSome = true := by
  intro entries
  induction entries with
  | nil => intro acc; rfl
  | cons entry rest ih =>
    intro acc
    unfold unlockKeysLoop
    split
    · rfl
    · split
      · rfl
      · split
        · rfl
        · exact ih _

theorem UnlockKeysM_fst_isSome (decBlock : List Nat → List Nat → List Nat)
    (md5f : List Nat → List Nat)
    (pbkdf2f : List Nat → List Nat → Nat → Nat → List Nat)
    (readResult : Except String EncryptionKeys) (pwd : List Nat) :
    ((UnlockKeysM decBlock md5f pbkdf2f readResult pwd).1).isSome = true := by
  unfold UnlockKeysM
  cases readResult with
  | error e => rfl
  | ok keyList => exact unlockKeysLoop_fst_isSome decBlock md5f pbkdf2f pwd keyList.list []

/-! ## Claim C1: failed unlock must leave the vault locked -/

/-- C1 (code bug): whenever `Vault.Unlock` returns an error — wrong master
password included — the vault does *not* remain locked: `IsLocked()`
reports `false`, because the crypto agent was installed with the non-nil
empty `KeyDict{}` that `UnlockKeys` returns alongside its error.  (No key
material is retained — the dict is empty — but the claimed
`IsLocked() = true` fails.) -/
theorem unlock_error_leaves_vault_unlocked
    (decBlock : List Nat → List Nat → List Nat)
    (md5f : List Nat → List Nat)
    (pbkdf2f : List Nat → List Nat → Nat → Nat → List Nat)
    (readResult : Except String EncryptionKeys) (pwd : List Nat) (v : VaultM)
    (herr : ((VaultM.unlock decBlock md5f pbkdf2f readResult pwd v).2).isSome = true) :
    (VaultM.unlock decBlock md5f pbkdf2f readResult pwd v).1.isLocked = false := by
  obtain ⟨d, hd⟩ := Option.isSome_iff_exists.mp
    (UnlockKeysM_fst_isSome decBlock md5f pbkdf2f readResult pwd)
  simp [VaultM.unlock, VaultM.isLocked, SimpleCryptoAgent.isLocked, hd]

def c1UnlockResult : VaultM × Option String :=
  VaultM.unlock xorCipherBlock constMd5 zeroPbkdf2 (.error "read failed") [2]
    { path := "/v", cryptoAgent := none }

/-- Witness for C1's theorem: a concrete `Unlock` call that fails (the
encryption-keys file cannot be read; the same shape arises for a wrong
master password, whose failure comes from `decryptKey`) returns an error,
yet `IsLocked()` is `false` afterwards. -/
theorem unlock_error_leaves_vault_unlocked_witness :
    (c1UnlockResult.2).isSome = true ∧ c1UnlockResult.1.isLocked = false :=
  ⟨rfl,
    unlock_error_leaves_vault_unlocked xorCipherBlock constMd5 zeroPbkdf2
      (.error "read failed") [2] { path := "/v", cryptoAgent := none } rfl⟩

/-! ## Vault creation (onepass/vault.go: NewVault / saveEncryptionKeys) -/

structure VaultSecurity where
  masterPwd : List Nat
  iterations : Nat

/-- `strings.HasSuffix`, over the characters of the strings (Lean's built-in
`String.endsWith` does not evaluate by reduction). -/
def hasSuffix (s suffix : String) : Bool := suffix.toList.isSuffixOf s.toList

/-- `saveEncryptionKeys`: write the JSON file, then (only if that succeeded)
the plist mirror; the file writers are parameters standing for
`jsonutil.WriteFile` / `writePlistFile` on the two paths. -/
def saveEncryptionKeysM (writeKeysJson writeKeysPlist : EncryptionKeys → Except String Unit)
    (keyList : EncryptionKeys) : Except String Unit :=
  match writeKeysJson keyList with
  | .error e => .error e
  | .ok _ => writeKeysPlist keyList

/-- `NewVault`: `pathExists`, `mkdirResult`, `writeContentsResult` and the
key-file writers stand for the filesystem interactions; `randomKey`, `salt`,
`validationSalt` and `newId` for the randomness.  The final
`saveEncryptionKeysM` result is bound and discarded, exactly as the Go code
assigns `err = saveEncryptionKeys(...)` and then returns `nil`. -/
def NewVaultM (encBlock : List Nat → List Nat → List Nat)
    (md5f : List Nat → List Nat)
    (pbkdf2f : List Nat → List Nat → Nat → Nat → List Nat)
    (vaultPath : String) (security : VaultSecurity)
    (pathExists : Bool) (mkdirResult writeContentsResult : Except String Unit)
    (randomKey salt validationSalt : List Nat) (newId : String)
    (writeKeysJson writeKeysPlist : EncryptionKeys → Except String Unit) :
    Except String VaultM :=
  if ¬ hasSuffix vaultPath ".agilekeychain" then
    .error "vault folder name must end with .agilekeychain"
  else
    let iterations := if security.iterations = 0 then 17094 else security.iterations
    if pathExists then
      .error "Vault already exists"
    else
      match mkdirResult with
      | .error e => .error e
      | .ok _ =>
        match writeContentsResult with
        | .error _ => .error "Failed to create contents.js file"
        | .ok _ =>
          match encryptKey encBlock md5f pbkdf2f security.masterPwd randomKey salt
              iterations validationSalt with
          | .error _ => .error "Failed to generate encryption key"
          | .ok p =>
            let mainKey : EncKeyEntry :=
              { data := saltMagic ++ salt ++ p.1
                identifier := newId
                iterations := iterations
                level := "SL5"
                validation := p.2 }
            let keyList : EncryptionKeys := { list := [mainKey], sl5 := mainKey.identifier }
            let _err := saveEncryptionKeysM writeKeysJson writeKeysPlist keyList
            .ok { path := vaultPath, cryptoAgent := none }

/-! ## Claim C10: NewVault swallows key-persistence failures -/

/-- C10 (confirmed): when every earlier step succeeds but saving the
encryption-keys files fails (here: the very first write, so neither
`encryptionKeys.js` nor the `1password.keys` mirror is produced),
`NewVault` still returns a vault and no error. -/
theorem newVault_swallows_key_persistence_failure
    (encBlock : List Nat → List Nat → List Nat)
    (md5f : List Nat → List Nat)
    (pbkdf2f : List Nat → List Nat → Nat → Nat → List Nat)
    (vaultPath : String) (security : VaultSecurity)
    (mkdirResult writeContentsResult : Except String Unit)
    (randomKey salt validationSalt : List Nat) (newId : String)
    (writeKeysJson writeKeysPlist : EncryptionKeys → Except String Unit)
    (p : List Nat × List Nat) (e : String)
    (hsuffix : hasSuffix vaultPath ".agilekeychain" = true)
    (hmkdir : mkdirResult = .ok ())
    (hwrite : writeContentsResult = .ok ())
    (hiter : security.iterations ≠ 0)
    (henc : encryptKey encBlock md5f pbkdf2f security.masterPwd randomKey salt
      security.iterations validationSalt = .ok p)
    (hsave : ∀ keyList, writeKeysJson keyList = .error e) :
    (∀ keyList, saveEncryptionKeysM writeKeysJson writeKeysPlist keyList = .error e) ∧
    NewVaultM encBlock md5f pbkdf2f vaultPath security false mkdirResult
      writeContentsResult randomKey salt validationSalt newId
      writeKeysJson writeKeysPlist = .ok { path := vaultPath, cryptoAgent := none } := by
  constructor
  · intro keyList
    unfold saveEncryptionKeysM
    rw [hsave keyList]
  · unfold NewVaultM
    rw [if_neg (by rw [hsuffix]; simp)]
    simp only [if_neg hiter, hmkdir, hwrite, henc]
    simp

/-- Witness for C10's theorem at concrete inputs. -/
theorem newVault_swallows_key_persistence_failure_witness :
    (hasSuffix "v.agilekeychain" ".agilekeychain" = true) ∧
    ((1 : Nat) ≠ 0) ∧
    ((∀ keyList, saveEncryptionKeysM (fun _ => .error "disk full") (fun _ => .ok ())
        keyList = .error "disk full") ∧
      NewVaultM xorCipherBlock constMd5 zeroPbkdf2 "v.agilekeychain" ⟨[], 1⟩ false
        (.ok ()) (.ok ()) c7Key c7Salt c7Salt "KEY1"
        (fun _ => .error "disk full") (fun _ => .ok ()) =
        .ok { path := "v.agilekeychain", cryptoAgent := none }) := by
  have hak : ((zeroPbkdf2 [] c7Salt 1 32).take 16).length = 16 := by
    rw [List.length_take, zeroPbkdf2, List.length_replicate]
    omega
  have hai : (((zeroPbkdf2 [] c7Salt 1 32).drop 16).take 16).length = 16 := by
    rw [List.length_take, List.length_drop, zeroPbkdf2, List.length_replicate]
    omega
  have hvk : ((openSslKey constMd5 c7Key c7Salt).1).length = 16 := by
    simp only [openSslKey, constMd5, List.length_replicate]
  have hvi : ((openSslKey constMd5 c7Key c7Salt).2).length = 16 := by
    simp only [openSslKey, constMd5, List.length_replicate]
  refine ⟨by decide, by decide, ?_⟩
  exact newVault_swallows_key_persistence_failure xorCipherBlock constMd5 zeroPbkdf2
    "v.agilekeychain" ⟨[], 1⟩ (.ok ()) (.ok ()) c7Key c7Salt c7Salt "KEY1"
    (fun _ => .error "disk full") (fun _ => .ok ()) _ "disk full"
    (by decide) rfl rfl (by decide)
    (encryptKey_ok xorCipherBlock constMd5 zeroPbkdf2 [] c7Key c7Salt 1 c7Salt
      hak hai hvk hvi)
    (fun _ => rfl)

/-! ## Item data model (onepass/itemdata.go, onepass/vault.go) -/

/-- `ItemField.Value` is Go `interface{}`; the kinds actually stored are
text, integers (`date`, `monthYear`) and the address record. -/
inductive FieldValue where
  | text (s : String)
  | num (n : Int)
  | address (street country city zip state : String)
  | null
deriving DecidableEq

structure ItemField where
  kind : String
  name : String
  title : String
  value : FieldValue
deriving DecidableEq

structure ItemSection where
  name : String
  title : String
  fields : List ItemField
deriving DecidableEq

/-- `WebFormField` (the Go field `Type` is `fieldType` here). -/
structure WebFormField where
  value : String
  id : String
  name : String
  fieldType : String
  designation : String
deriving DecidableEq

structure ItemUrl where
  label : String
  url : String
deriving DecidableEq

structure ItemOpenContents where
  tags : List String
  scope : String
deriving DecidableEq

structure ItemContent where
  sections : List ItemSection
  urls : List ItemUrl
  notes : String
  formFields : List WebFormField
  htmlMethod : String
  htmlAction : String
  htmlId : String
deriving DecidableEq

/-- The Go zero value `ItemContent{}` (nil slices normalize to empty ones in
`SetContent`; Lean lists have no nil/empty distinction). -/
def emptyItemContent : ItemContent :=
  { sections := [], urls := [], notes := "", formFields := []
    htmlMethod := "", htmlAction := "", htmlId := "" }

/-- `Item` (onepass/vault.go); the operations take the owning vault
explicitly instead of Go's `vault *Vault` back-pointer. -/
structure Item where
  updatedAt : Nat
  title : String
  securityLevel : String
  encrypted : List Nat
  contentsHash : String
  typeName : String
  uuid : String
  createdAt : Nat
  location : String
  folderUuid : String
  faveIndex : Int
  trashed : Bool
  openContents : ItemOpenContents
deriving DecidableEq

/-- A row of `contents.js`:
`[uuid, typeName, title, location, updatedAt, folderUuid, 0, "N|Y"]`. -/
structure ContentsEntry where
  uuid : String
  typeName : String
  title : String
  location : String
  updatedAt : Nat
  folderUuid : String
  zero : Nat
  trashed : String
deriving DecidableEq

/-- `Item.contentsEntry`. -/
def Item.contentsEntry (item : Item) : ContentsEntry :=
  { uuid := item.uuid
    typeName := item.typeName
    title := item.title
    location := item.location
    updatedAt := item.updatedAt
    folderUuid := item.folderUuid
    zero := 0
    trashed := if item.trashed then "Y" else "N" }

/-- The vault's on-disk state: the `<uuid>.1password` files (keyed by uuid)
and the `contents.js` index.  File reads and writes on this state are total:
the I/O itself is not a failure source in the model. -/
structure VaultState where
  files : List (String × Item)
  contents : List ContentsEntry

/-- Writing `<uuid>.1password`: replace the existing file or create it. -/
def storeFile : List (String × Item) → String → Item → List (String × Item)
  | [], uuid, it => [(uuid, it)]
  | f :: rest, uuid, it =>
    if f.1 == uuid then (uuid, it) :: rest else f :: storeFile rest uuid it

/-- The `contents.js` upsert loop of `Item.Save`: replace the first row with
the item's uuid, else append. -/
def upsertContentsEntry : List ContentsEntry → Item → List ContentsEntry
  | [], item => [item.contentsEntry]
  | e :: rest, item =>
    if e.uuid == item.uuid then item.contentsEntry :: rest
    else e :: upsertContentsEntry rest item

/-- `Vault.LoadItem`. -/
def Vault.loadItem (st : VaultState) (uuid : String) : Except String Item :=
  match st.files.lookup uuid with
  | none => .error "no such item file"
  | some item => .ok item

/-- `Vault.ListItems`: parse each `.1password` file and keep everything
except tombstones.  (Unreadable files, which Go logs and skips, do not
arise in the model.) -/
def Vault.listItems (st : VaultState) : List Item :=
  (st.files.map Prod.snd).filter (fun it => it.typeName ≠ "system.Tombstone")

/-- `Item.Save`: requires a non-empty encrypted body, stamps `updatedAt`
(and `createdAt` on first save), writes the item file, upserts the index
row.  `now` stands for `time.Now().Unix()`. -/
def Item.save (item : Item) (st : VaultState) (now : Nat) :
    Except String (Item × VaultState) :=
  if item.encrypted.length = 0 then
    .error "Item content not set"
  else
    let item1 := { item with
      updatedAt := now
      createdAt := if item.createdAt = 0 then now else item.createdAt }
    .ok (item1,
      { files := storeFile st.files item1.uuid item1
        contents := upsertContentsEntry st.contents item1 })

/-- The key the simple crypto agent hands to `EncryptItemData`:
`agent.keys[keyName]`, where a nil map or a missing key yields Go's nil
slice (here `[]`, which then fails the 1024-byte length check). -/
def SimpleCryptoAgent.itemKey (a : SimpleCryptoAgent) (keyName : String) : List Nat :=
  match a.keys with
  | none => []
  | some dict => (dict.lookup keyName).getD []

/-- `simpleCryptoAgent.Encrypt`. -/
def SimpleCryptoAgent.encryptA (encBlock : List Nat → List Nat → List Nat)
    (md5f : List Nat → List Nat) (salt : List Nat)
    (a : SimpleCryptoAgent) (keyName : String) (data : List Nat) :
    Except String (List Nat) :=
  EncryptItemData encBlock md5f (a.itemKey keyName) data salt

/-- The byte representation of a string (Go converts with `[]byte(content)`;
character codes stand in for the UTF-8 bytes). -/
def strBytes (s : String) : List Nat := s.toList.map Char.toNat

/-- `Item.SetContentJson`: reject invalid JSON (`jsonValid` stands for the
`json.Unmarshal` probe), reject a locked vault, then encrypt with the key
named by the item's security level and store the result. -/
def Item.setContentJson (encBlock : List Nat → List Nat → List Nat)
    (md5f : List Nat → List Nat) (salt : List Nat)
    (jsonValid : String → Bool) (v : VaultM) (item : Item) (content : String) :
    Except String Item :=
  if ¬ jsonValid content then
    .error "Content is not valid JSON"
  else if v.isLocked then
    .error "Vault is locked"
  else
    match v.cryptoAgent with
    | none => .error "Vault is locked"
    | some a =>
      match a.encryptA encBlock md5f salt item.securityLevel (strBytes content) with
      | .error e => .error ("Failed to encrypt item: " ++ e)
      | .ok enc => .ok { item with encrypted := enc }

/-- The `location`-update loop of `Item.SetContent`: every url labelled
exactly "website" overwrites `location`, so the last one wins. -/
def updateLocation (loc : String) (urls : List ItemUrl) : String :=
  urls.foldl (fun acc u => if u.label == "website" then u.url else acc) loc

/-- `Item.SetContent`: normalize nil slices (a no-op here), derive
`location` from the website url, serialize (`marshal` stands for
`json.Marshal`) and encrypt. -/
def Item.setContent (encBlock : List Nat → List Nat → List Nat)
    (md5f : List Nat → List Nat) (salt : List Nat)
    (jsonValid : String → Bool) (marshal : ItemContent → String)
    (v : VaultM) (item : Item) (data : ItemContent) : Except String Item :=
  let item1 := { item with location := updateLocation item.location data.urls }
  Item.setContentJson encBlock md5f salt jsonValid v item1 (marshal data)

/-- `Item.Remove`: rewrite the item in place as a tombstone, re-encrypt an
empty content, save. -/
def Item.remove (encBlock : List Nat → List Nat → List Nat)
    (md5f : List Nat → List Nat) (salt : List Nat)
    (jsonValid : String → Bool) (marshal : ItemContent → String)
    (v : VaultM) (st : VaultState) (item : Item) (now : Nat) :
    Except String (Item × VaultState) :=
  let item1 := { item with
    typeName := "system.Tombstone"
    title := "Unnamed"
    trashed := true }
  match Item.setContent encBlock md5f salt jsonValid marshal v item1 emptyItemContent with
  | .error e => .error e
  | .ok item2 => Item.save item2 st now

/-! ## Lemmas about the item pipeline -/

/-- `EncryptItemData` succeeds whenever the item key has the right length
and MD5 produces 16-byte digests, with this explicit envelope. -/
theorem EncryptItemData_ok (encBlock : List Nat → List Nat → List Nat)
    (md5f : List Nat → List Nat) (itemKey data salt : List Nat)
    (hk : itemKey.length = 1024) (hmd5 : ∀ x, (md5f x).length = 16) :
    EncryptItemData encBlock md5f itemKey data salt =
      .ok (saltMagic ++ salt ++
        (cbcEncryptBlocks (encBlock (openSslKey md5f itemKey salt).1)
          (openSslKey md5f itemKey salt).2 (toBlocks (aesAddPadding data))).flatten) := by
  unfold EncryptItemData
  rw [if_neg (by rw [hk]; simp [agileKeychainKeyLen])]
  simp only [aesCbcEncrypt_ok encBlock (openSslKey md5f itemKey salt).1 data
    (openSslKey md5f itemKey salt).2 (hmd5 _) (hmd5 _)]

theorem storeFile_lookup (files : List (String × Item)) (uuid : String) (it : Item) :
    (storeFile files uuid it).lookup uuid = some it := by
  induction files with
  | nil => simp [storeFile, List.lookup]
  | cons f rest ih =>
    obtain ⟨k, v⟩ := f
    unfold storeFile
    by_cases h : k = uuid
    · rw [if_pos (by simp [h])]
      simp [List.lookup]
    · rw [if_neg (by simp [h])]
      have h' : (uuid == k) = false := beq_eq_false_iff_ne.mpr (Ne.symm h)
      simp [List.lookup, h', ih]

theorem upsertContentsEntry_any (entries : List ContentsEntry) (item : Item) :
    ((upsertContentsEntry entries item).any (fun e => e.uuid == item.uuid)) = true := by
  induction entries with
  | nil => simp [upsertContentsEntry, Item.contentsEntry]
  | cons e rest ih =>
    unfold upsertContentsEntry
    by_cases h : e.uuid == item.uuid
    · rw [if_pos h]
      simp [Item.contentsEntry]
    · rw [if_neg h]
      simp [ih]

/-- `Item.SetContentJson` succeeds on an unlocked vault whose key dict has a
1024-byte key for the item's security level, with this explicit result. -/
theorem setContentJson_ok (encBlock : List Nat → List Nat → List Nat)
    (md5f : List Nat → List Nat) (salt : List Nat)
    (jsonValid : String → Bool) (v : VaultM) (item : Item) (content : String)
    (a : SimpleCryptoAgent) (dict : List (String × List Nat)) (key : List Nat)
    (hv : v.cryptoAgent = some a) (hkeys : a.keys = some dict)
    (hkey : dict.lookup item.securityLevel = some key) (hklen : key.length = 1024)
    (hmd5 : ∀ x, (md5f x).length = 16) (hjson : jsonValid content = true) :
    Item.setContentJson encBlock md5f salt jsonValid v item content =
      .ok { item with encrypted := saltMagic ++ salt ++
        (cbcEncryptBlocks (encBlock (openSslKey md5f key salt).1)
          (openSslKey md5f key salt).2
          (toBlocks (aesAddPadding (strBytes content)))).flatten } := by
  have hlocked : v.isLocked = false := by
    simp [VaultM.isLocked, hv, SimpleCryptoAgent.isLocked, hkeys]
  have hik : a.itemKey item.securityLevel = key := by
    simp [SimpleCryptoAgent.itemKey, hkeys, hkey]
  unfold Item.setContentJson
  rw [if_neg (by simp [hjson]), if_neg (by simp [hlocked])]
  simp only [hv]
  unfold SimpleCryptoAgent.encryptA
  rw [hik]
  simp only [EncryptItemData_ok encBlock md5f key (strBytes content) salt hklen hmd5]

/-- `Item.SetContent` under the same conditions: the location is rewritten
by the website-url loop and the serialized content is encrypted. -/
theorem setContent_ok (encBlock : List Nat → List Nat → List Nat)
    (md5f : List Nat → List Nat) (salt : List Nat)
    (jsonValid : String → Bool) (marshal : ItemContent → String)
    (v : VaultM) (item : Item) (data : ItemContent)
    (a : SimpleCryptoAgent) (dict : List (String × List Nat)) (key : List Nat)
    (hv : v.cryptoAgent = some a) (hkeys : a.keys = some dict)
    (hkey : dict.lookup item.securityLevel = some key) (hklen : key.length = 1024)
    (hmd5 : ∀ x, (md5f x).length = 16)
    (hjson : jsonValid (marshal data) = true) :
    Item.setContent encBlock md5f salt jsonValid marshal v item data =
      .ok { item with
        location := updateLocation item.location data.urls
        encrypted := saltMagic ++ salt ++
          (cbcEncryptBlocks (encBlock (openSslKey md5f key salt).1)
            (openSslKey md5f key salt).2
            (toBlocks (aesAddPadding (strBytes (marshal data))))).flatten } := by
  unfold Item.setContent
  exact setContentJson_ok encBlock md5f salt jsonValid v
    { item with location := updateLocation item.location data.urls }
    (marshal data) a dict key hv hkeys hkey hklen hmd5 hjson

/-! ## Claim C5: Remove rewrites in place and ListItems filters tombstones -/

/-- C5 (confirmed): on an unlocked vault holding a 1024-byte key for the
item's security level, `Item.Remove` succeeds; the resulting item keeps the
uuid but has `typeName = "system.Tombstone"`, `title = "Unnamed"`,
`trashed = true`; the item file still exists (`LoadItem` succeeds) and the
index still has a row for the uuid; and `ListItems` never returns a
tombstone, in any state. -/
theorem remove_tombstone_spec (encBlock : List Nat → List Nat → List Nat)
    (md5f : List Nat → List Nat) (salt : List Nat)
    (jsonValid : String → Bool) (marshal : ItemContent → String)
    (v : VaultM) (st : VaultState) (item : Item) (now : Nat)
    (a : SimpleCryptoAgent) (dict : List (String × List Nat)) (key : List Nat)
    (hv : v.cryptoAgent = some a) (hkeys : a.keys = some dict)
    (hkey : dict.lookup item.securityLevel = some key) (hklen : key.length = 1024)
    (hmd5 : ∀ x, (md5f x).length = 16)
    (hjson : jsonValid (marshal emptyItemContent) = true) :
    (∃ item2 st2,
      Item.remove encBlock md5f salt jsonValid marshal v st item now = .ok (item2, st2) ∧
      item2.uuid = item.uuid ∧
      item2.typeName = "system.Tombstone" ∧
      item2.title = "Unnamed" ∧
      item2.trashed = true ∧
      Vault.loadItem st2 item.uuid = .ok item2 ∧
      (st2.contents.any (fun e => e.uuid == item.uuid)) = true) ∧
    ∀ (st0 : VaultState), ∀ it ∈ Vault.listItems st0, it.typeName ≠ "system.Tombstone" := by
  constructor
  · have hset := setContent_ok encBlock md5f salt jsonValid marshal v
      { item with typeName := "system.Tombstone", title := "Unnamed", trashed := true }
      emptyItemContent a dict key hv hkeys hkey hklen hmd5 hjson
    unfold Item.remove
    simp only [hset]
    unfold Item.save
    rw [if_neg (by
      simp only [List.length_append]
      have hsm : saltMagic.length = 8 := rfl
      omega)]
    refine ⟨_, _, rfl, rfl, rfl, rfl, rfl, ?_, ?_⟩
    · unfold Vault.loadItem
      rw [show ∀ (fs : List (String × Item)) (i : Item),
          List.lookup item.uuid (storeFile fs item.uuid i) = some i from
        fun fs i => storeFile_lookup fs item.uuid i]
    · exact upsertContentsEntry_any st.contents _
  · intro st0 it hit
    unfold Vault.listItems at hit
    simp only [List.mem_filter, decide_eq_true_eq] at hit
    exact hit.2

def c5Vault : VaultM :=
  { path := "/v", cryptoAgent := some ⟨some [("SL5", c7Key)]⟩ }

def c5Item : Item :=
  { updatedAt := 10, title := "My Login", securityLevel := "SL5"
    encrypted := [1], contentsHash := "", typeName := "webforms.WebForm"
    uuid := "AB12", createdAt := 5, location := "old", folderUuid := ""
    faveIndex := 0, trashed := false, openContents := ⟨[], ""⟩ }

/-- Witness for C5's theorem at a concrete unlocked vault and stored item. -/
theorem remove_tombstone_spec_witness :
    c5Vault.cryptoAgent = some ⟨some [("SL5", c7Key)]⟩ ∧
    ([("SL5", c7Key)].lookup c5Item.securityLevel = some c7Key) ∧
    c7Key.length = 1024 ∧
    ((∃ item2 st2,
        Item.remove xorCipherBlock constMd5 c7Salt (fun _ => true) (fun _ => "null")
          c5Vault ⟨[("AB12", c5Item)], [c5Item.contentsEntry]⟩ c5Item 99 =
          .ok (item2, st2) ∧
        item2.uuid = c5Item.uuid ∧
        item2.typeName = "system.Tombstone" ∧
        item2.title = "Unnamed" ∧
        item2.trashed = true ∧
        Vault.loadItem st2 c5Item.uuid = .ok item2 ∧
        (st2.contents.any (fun e => e.uuid == c5Item.uuid)) = true) ∧
      ∀ (st0 : VaultState), ∀ it ∈ Vault.listItems st0,
        it.typeName ≠ "system.Tombstone") :=
  ⟨rfl, rfl, by rw [c7Key, List.length_replicate],
    remove_tombstone_spec xorCipherBlock constMd5 c7Salt (fun _ => true)
      (fun _ => "null") c5Vault ⟨[("AB12", c5Item)], [c5Item.contentsEntry]⟩ c5Item 99
      ⟨some [("SL5", c7Key)]⟩ [("SL5", c7Key)] c7Key rfl rfl rfl
      (by rw [c7Key, List.length_replicate])
      (fun x => by rw [constMd5, List.length_replicate]) rfl⟩

/-! ## Claim C8: SetContent derives the location from the website url -/

/-- The last url labelled exactly "website", if any (spec-side phrasing of
"the last such entry wins"). -/
def lastWebsiteUrl (urls : List ItemUrl) : Option ItemUrl :=
  urls.reverse.find? (fun u => u.label == "website")

theorem updateLocation_eq (urls : List ItemUrl) : ∀ loc : String,
    updateLocation loc urls = match lastWebsiteUrl urls with
      | some u => u.url
      | none => loc := by
  induction urls with
  | nil => intro loc; rfl
  | cons u us ih =>
    intro loc
    show updateLocation (if u.label == "website" then u.url else loc) us = _
    rw [ih]
    unfold lastWebsiteUrl
    simp only [List.reverse_cons, List.find?_append]
    cases hfind : us.reverse.find? (fun w => w.label == "website") with
    | some w => rfl
    | none =>
      cases hu : u.label == "website" with
      | true => simp [List.find?, hu]
      | false => simp [List.find?, hu]

/-- A successful `SetContentJson` only replaces the encrypted body; the
location is untouched. -/
theorem setContentJson_location (encBlock : List Nat → List Nat → List Nat)
    (md5f : List Nat → List Nat) (salt : List Nat)
    (jsonValid : String → Bool) (v : VaultM) (item : Item) (content : String)
    (item' : Item)
    (h : Item.setContentJson encBlock md5f salt jsonValid v item content = .ok item') :
    item'.location = item.location := by
  unfold Item.setContentJson at h
  split at h
  · exact Except.noConfusion h
  · split at h
    · exact Except.noConfusion h
    · split at h
      · exact Except.noConfusion h
      · split at h
        · exact Except.noConfusion h
        · injection h with h
          rw [← h]

/-- C8 (confirmed): after a successful `SetContent`, the item's location is
the url of the last entry labelled exactly "website", and is unchanged when
no such entry exists. -/
theorem setContent_location (encBlock : List Nat → List Nat → List Nat)
    (md5f : List Nat → List Nat) (salt : List Nat)
    (jsonValid : String → Bool) (marshal : ItemContent → String)
    (v : VaultM) (item : Item) (data : ItemContent) (item' : Item)
    (h : Item.setContent encBlock md5f salt jsonValid marshal v item data = .ok item') :
    item'.location = match lastWebsiteUrl data.urls with
      | some u => u.url
      | none => item.location := by
  unfold Item.setContent at h
  have hloc := setContentJson_location encBlock md5f salt jsonValid v
    { item with location := updateLocation item.location data.urls }
    (marshal data) item' h
  rw [hloc]
  show updateLocation item.location data.urls = _
  exact updateLocation_eq data.urls item.location

def c8Data : ItemContent :=
  { emptyItemContent with
    urls := [⟨"website", "https://old.example.com"⟩,
      ⟨"homepage", "https://other.example.com"⟩,
      ⟨"website", "https://example.com"⟩] }

def c8Result : Item :=
  match Item.setContent xorCipherBlock constMd5 c7Salt (fun _ => true)
      (fun _ => "null") c5Vault c5Item c8Data with
  | .ok it => it
  | .error _ => c5Item

/-- Witness for C8's theorem: with three urls, two of them labelled
"website", the location becomes the last website url. -/
theorem setContent_location_witness :
    (Item.setContent xorCipherBlock constMd5 c7Salt (fun _ => true) (fun _ => "null")
        c5Vault c5Item c8Data = .ok c8Result) ∧
    (c8Result.location = match lastWebsiteUrl c8Data.urls with
      | some u => u.url
      | none => c5Item.location) := by
  have hset := setContent_ok xorCipherBlock constMd5 c7Salt (fun _ => true)
    (fun _ => "null") c5Vault c5Item c8Data ⟨some [("SL5", c7Key)]⟩
    [("SL5", c7Key)] c7Key rfl rfl rfl
    (by rw [c7Key, List.length_replicate])
    (fun x => by rw [constMd5, List.length_replicate]) rfl
  have hres : Item.setContent xorCipherBlock constMd5 c7Salt (fun _ => true)
      (fun _ => "null") c5Vault c5Item c8Data = .ok c8Result := by
    rw [hset]
    unfold c8Result
    rw [hset]
  exact ⟨hres,
    setContent_location xorCipherBlock constMd5 c7Salt (fun _ => true)
      (fun _ => "null") c5Vault c5Item c8Data c8Result hres⟩

/-! ## Password generation (onepass/vault.go: genPasswordCandidate /
GenPassword)

`f i` stands for the `i`-th character of the base64 buffer the Go loop
extends on demand from `base64.StdEncoding.EncodeToString(randomBytes(n))`
(the buffer always grows before `i` can reach its end, so it behaves as an
infinite stream).  The unbounded `for` loops become fuel recursion: `none`
models non-termination, never a produced password. -/

def genCandLoop (f : Nat → Char) (length : Nat) :
    Nat → Nat → List Char → Option (List Char)
  | 0, _, _ => none
  | fuel + 1, i, output =>
    if output.length ≥ length then some output
    else if f i = '+' ∨ f i = '/' ∨ f i = '=' then
      genCandLoop f length fuel (i + 1) output
    else if output.length % 4 = 3 ∧ length - output.length > 1 then
      genCandLoop f length fuel (i + 1) (output ++ ['-', f i])
    else
      genCandLoop f length fuel (i + 1) (output ++ [f i])

/-- `genPasswordCandidate` (sectionSize = 3, so a `-` goes at every output
position ≡ 3 (mod 4) unless at most one character remains). -/
def genPasswordCandidate (f : Nat → Char) (length fuel : Nat) : Option (List Char) :=
  genCandLoop f length fuel 0 []

/-- The retry loop of `GenPassword`: draw candidates until one has a
lowercase letter, an uppercase letter and a digit. -/
def genPasswordAttempts (f : Nat → Nat → Char) (length innerFuel : Nat) :
    Nat → Nat → Option (List Char)
  | 0, _ => none
  | fuel + 1, attempt =>
    match genPasswordCandidate (f attempt) length innerFuel with
    | none => none
    | some candidate =>
      if candidate.any Char.isLower && candidate.any Char.isUpper &&
          candidate.any Char.isDigit then
        some candidate
      else
        genPasswordAttempts f length innerFuel fuel (attempt + 1)

/-- `GenPassword`; lengths below 4 panic in Go (modelled as `none`). -/
def GenPassword (f : Nat → Nat → Char) (length outerFuel innerFuel : Nat) :
    Option (List Char) :=
  if length < 4 then none
  else genPasswordAttempts f length innerFuel outerFuel 0

/-- The loop invariant of `genCandLoop`: never longer than the target, no
banned characters, and a `-` at every position ≡ 3 (mod 4) other than the
final one. -/
def candInv (n : Nat) (out : List Char) : Prop :=
  out.length ≤ n ∧
  (∀ c ∈ out, c ≠ '+' ∧ c ≠ '/' ∧ c ≠ '=') ∧
  (∀ j, j < out.length → j % 4 = 3 → j ≠ n - 1 → out[j]? = some '-')

theorem genCandLoop_spec (f : Nat → Char) (n : Nat) :
    ∀ (fuel i : Nat) (out res : List Char), candInv n out →
      genCandLoop f n fuel i out = some res →
      res.length = n ∧ candInv n res := by
  intro fuel
  induction fuel with
  | zero => intro i out res _ h; exact Option.noConfusion h
  | succ fuel ih =>
    intro i out res hinv h
    unfold genCandLoop at h
    by_cases hdone : out.length ≥ n
    · rw [if_pos hdone] at h
      injection h with h
      subst h
      exact ⟨le_antisymm hinv.1 hdone, hinv⟩
    · rw [if_neg hdone] at h
      by_cases hban : f i = '+' ∨ f i = '/' ∨ f i = '='
      · rw [if_pos hban] at h
        exact ih (i + 1) out res hinv h
      · rw [if_neg hban] at h
        have hc : f i ≠ '+' ∧ f i ≠ '/' ∧ f i ≠ '=' := by
          refine ⟨?_, ?_, ?_⟩ <;> intro hcon <;> exact hban (by simp [hcon])
        by_cases hhy : out.length % 4 = 3 ∧ n - out.length > 1
        · rw [if_pos hhy] at h
          refine ih (i + 1) _ res ⟨?_, ?_, ?_⟩ h
          · simp only [List.length_append, List.length_cons, List.length_nil]
            omega
          · intro c hcmem
            rcases List.mem_append.mp hcmem with hcmem | hcmem
            · exact hinv.2.1 c hcmem
            · rcases List.mem_cons.mp hcmem with rfl | hcmem
              · exact ⟨by decide, by decide, by decide⟩
              · rcases List.mem_cons.mp hcmem with rfl | hcmem
                · exact hc
                · exact absurd hcmem (List.not_mem_nil c)
          · intro j hj hj4 hjn
            simp only [List.length_append, List.length_cons, List.length_nil] at hj
            by_cases hlt : j < out.length
            · rw [List.getElem?_append_left hlt]
              exact hinv.2.2 j hlt hj4 hjn
            · rw [List.getElem?_append_right (by omega)]
              have hj' : j = out.length ∨ j = out.length + 1 := by omega
              rcases hj' with rfl | rfl
              · simp
              · omega
        · rw [if_neg hhy] at h
          refine ih (i + 1) _ res ⟨?_, ?_, ?_⟩ h
          · simp only [List.length_append, List.length_cons, List.length_nil]
            omega
          · intro c hcmem
            rcases List.mem_append.mp hcmem with hcmem | hcmem
            · exact hinv.2.1 c hcmem
            · rcases List.mem_cons.mp hcmem with rfl | hcmem
              · exact hc
              · exact absurd hcmem (List.not_mem_nil c)
          · intro j hj hj4 hjn
            simp only [List.length_append, List.length_cons, List.length_nil] at hj
            by_cases hlt : j < out.length
            · rw [List.getElem?_append_left hlt]
              exact hinv.2.2 j hlt hj4 hjn
            · have hj' : j = out.length := by omega
              subst hj'
              exfalso
              have hn1 : n - out.length = 1 := by
                rcases Decidable.not_and_iff_or_not.mp hhy with h4 | hgt
                · exact absurd hj4 h4
                · omega
              exact hjn (by omega)

/-! ## Claim C9: shape of generated passwords -/

/-- C9 (confirmed): every password `GenPassword` produces for a target
length in 4..20 has exactly that length, contains a lowercase letter, an
uppercase letter and a digit, contains none of `+`, `/`, `=`, and has `-`
at every position 4, 8, 12, … (1-based) except possibly the last
character. -/
theorem genPassword_spec (f : Nat → Nat → Char) (n outerFuel innerFuel : Nat)
    (s : List Char) (h4 : 4 ≤ n) (h20 : n ≤ 20)
    (h : GenPassword f n outerFuel innerFuel = some s) :
    s.length = n ∧
    s.any Char.isLower = true ∧
    s.any Char.isUpper = true ∧
    s.any Char.isDigit = true ∧
    (∀ c ∈ s, c ≠ '+' ∧ c ≠ '/' ∧ c ≠ '=') ∧
    (∀ j, j < s.length → j % 4 = 3 → j ≠ n - 1 → s[j]? = some '-') := by
  unfold GenPassword at h
  rw [if_neg (by omega)] at h
  revert h
  generalize 0 = attempt
  induction outerFuel generalizing attempt with
  | zero => intro h; exact Option.noConfusion h
  | succ fuel ih =>
    intro h
    unfold genPasswordAttempts at h
    cases hcand : genPasswordCandidate (f attempt) n innerFuel with
    | none => rw [hcand] at h; exact Option.noConfusion h
    | some candidate =>
      simp only [hcand] at h
      by_cases hchk : candidate.any Char.isLower && candidate.any Char.isUpper &&
          candidate.any Char.isDigit
      · rw [if_pos hchk] at h
        injection h with h
        subst h
        have hspec := genCandLoop_spec (f attempt) n innerFuel 0 [] candidate
          ⟨by simp, by simp, by simp⟩ hcand
        simp only [Bool.and_eq_true] at hchk
        exact ⟨hspec.1, hchk.1.1, hchk.1.2, hchk.2, hspec.2.2.1, hspec.2.2.2⟩
      · rw [if_neg hchk] at h
        exact ih (attempt + 1) h

/-- A concrete character stream cycling a, B, 1 for the C9 witness. -/
def c9Stream (_attempt i : Nat) : Char :=
  if i % 3 = 0 then 'a' else if i % 3 = 1 then 'B' else '1'

/-- Witness for C9's theorem: with the cycling stream and target length 4,
`GenPassword` yields "aB1a", and the claimed shape holds for it. -/
theorem genPassword_spec_witness :
    (4 ≤ 4 ∧ 4 ≤ 20 ∧
      GenPassword c9Stream 4 5 10 = some ['a', 'B', '1', 'a']) ∧
    (['a', 'B', '1', 'a'].length = 4 ∧
      (['a', 'B', '1', 'a'].any Char.isLower = true) ∧
      (['a', 'B', '1', 'a'].any Char.isUpper = true) ∧
      (['a', 'B', '1', 'a'].any Char.isDigit = true) ∧
      (∀ c ∈ ['a', 'B', '1', 'a'], c ≠ '+' ∧ c ≠ '/' ∧ c ≠ '=') ∧
      (∀ j, j < ['a', 'B', '1', 'a'].length → j % 4 = 3 → j ≠ 4 - 1 →
        ['a', 'B', '1', 'a'][j]? = some '-')) :=
  ⟨⟨by decide, by decide, by decide⟩,
    genPassword_spec c9Stream 4 5 10 ['a', 'B', '1', 'a']
      (by decide) (by decide) (by decide)⟩
